import Mathlib

/-!
Shallow embedding of the virtual-memory management core of
`rust-raspberrypi-OS-tutorials` (tutorials 14 and 15, `src/memory/mmu.rs`).

The kernel mapping facade (`kernel_map_pages_at`, `kernel_map_pages_at_unchecked`,
`kernel_map_mmio`, `enable_mmu_and_caching`, `TranslationGranule`) is translated
directly from `src/memory/mmu.rs`.  The submodules it calls (`mapping_record`,
`translation_table`, `types`, the architecture MMU driver) are not part of the
given sources; those operations are modelled from the specification and each
such definition is marked `Modelled from the spec:` in its doc comment.

Machine integers (`usize`) are modelled as `Nat`; none of the modelled
arithmetic can overflow on the inputs the kernel uses, and the claims under
study do not depend on wrap-around behaviour.  Fallible Rust functions
returning `Result` are modelled with `Except`, and the global, lock-protected
state (translation tables, mapping record, MMU hardware) is modelled by
explicit state passing on a `KernelState` record; the lock discipline itself
is sequentialised away.
-/

/-- Address kinds: the `Physical` / `Virtual` phantom tags of `memory::Address`. -/
inductive AddressKind
| physical
| virtual
deriving DecidableEq, Repr

/-- `PageSliceDescriptor<Kind>`: a start address (a byte address, kept as `Nat`)
plus a number of whole pages. -/
structure PageSliceDescriptor (k : AddressKind) where
  start : Nat
  num_pages : Nat
deriving DecidableEq, Repr

/-- `MMIODescriptor`: a physical start address plus a byte size, not yet
page-aligned. -/
structure MMIODescriptor where
  start_addr : Nat
  size : Nat
deriving DecidableEq, Repr

/-- Memory type attribute (`MemAttributes`). -/
inductive MemAttributes
| CacheableDRAM
| Device
deriving DecidableEq, Repr

/-- Access permissions attribute (`AccessPermissions`). -/
inductive AccessPermissions
| ReadOnly
| ReadWrite
deriving DecidableEq, Repr

/-- `AttributeFields`: the attributes attached to every mapping. -/
structure AttributeFields where
  mem_attributes : MemAttributes
  acc_perms : AccessPermissions
  execute_never : Bool
deriving DecidableEq, Repr

/-- One entry of the mapping record: owner name, virtual descriptor, physical
descriptor, attributes. -/
structure MappingRecordEntry where
  name : String
  virt : PageSliceDescriptor AddressKind.virtual
  phys : PageSliceDescriptor AddressKind.physical
  attr : AttributeFields
deriving DecidableEq, Repr

/-- One installed page mapping of the translation table: a virtual page number
paired with a physical page number and the attributes it was installed with. -/
structure TableEntry where
  virt_page : Nat
  phys_page : Nat
  attr : AttributeFields
deriving DecidableEq, Repr

/-- Modelled from the spec: the state of the kernel's translation table
(`translation_table` submodule, not in the given sources).  It holds the
installed page mappings, a static capacity, the statically reserved MMIO
virtual sub-region (as a page range) and the monotone bump-allocation cursor
for MMIO virtual space. -/
structure TranslationTables where
  mappings : List TableEntry
  capacity : Nat
  mmio_start_page : Nat
  mmio_num_pages : Nat
  mmio_cursor : Nat
deriving DecidableEq, Repr

/-- Modelled from the spec: the architecture MMU driver's hardware control
state (`arch_mmu` submodule, not in the given sources): the enabled flag, the
table-base register and the translation-control register state. -/
structure MMUHardware where
  enabled : Bool
  table_base_reg : Nat
  control_reg_set : Bool
deriving DecidableEq, Repr

/-- `MMUEnableError` from `src/memory/mmu.rs`. -/
inductive MMUEnableError
| AlreadyEnabled
| Other (msg : String)
deriving DecidableEq, Repr

/-- The whole mutable state the facade operates on: the lock-protected global
translation tables, the bounded mapping record with its capacity, the MMU
hardware, and the emitted warnings.  `lost` is model instrumentation: the
entries dropped on the capacity-exceeded warning path are kept there so that
the bookkeeping-loss exception of the consistency invariant can be stated. -/
structure KernelState where
  tables : TranslationTables
  record : List MappingRecordEntry
  record_capacity : Nat
  lost : List MappingRecordEntry
  warnings : List String
  hw : MMUHardware
deriving DecidableEq, Repr

/-- `usize::is_power_of_two`: true iff the value is a power of two. -/
def isPowerOfTwo (n : Nat) : Bool :=
  if _h0 : n = 0 then false
  else if _h1 : n = 1 then true
  else if _h2 : n % 2 = 1 then false
  else isPowerOfTwo (n / 2)
termination_by n
decreasing_by omega

/-- `usize::trailing_zeros` (on a 64-bit value, whence the value 64 at 0). -/
def trailingZeros (n : Nat) : Nat :=
  if _h0 : n = 0 then 64
  else if _h1 : n % 2 = 1 then 0
  else trailingZeros (n / 2) + 1
termination_by n
decreasing_by omega

/-- `TranslationGranule::size_checked`: the `assert!(GRANULE_SIZE.is_power_of_two())`
compile-time failure is modelled as `none`. -/
def size_checked (g : Nat) : Option Nat :=
  if isPowerOfTwo g then some g else none

/-- `TranslationGranule::MASK = SIZE - 1` (undefined when construction fails). -/
def granuleMASK (g : Nat) : Option Nat :=
  (size_checked g).map (fun s => s - 1)

/-- `TranslationGranule::SHIFT = SIZE.trailing_zeros()` (undefined when
construction fails). -/
def granuleSHIFT (g : Nat) : Option Nat :=
  (size_checked g).map (fun s => trailingZeros s)

theorem isPowerOfTwo_two_pow (k : Nat) : isPowerOfTwo (2 ^ k) = true := by
  induction k with
  | zero => simp [isPowerOfTwo]
  | succ k ih =>
      rw [isPowerOfTwo]
      have h1 : 2 ^ (k + 1) = 2 ^ k * 2 := by ring
      have h2 : 2 ^ k ≥ 1 := Nat.one_le_two_pow
      have h3 : 2 ^ (k + 1) ≠ 0 := by positivity
      have h4 : 2 ^ (k + 1) % 2 = 0 := by omega
      have h5 : 2 ^ (k + 1) / 2 = 2 ^ k := by omega
      simp only [h3, h5, ih, dite_eq_ite, if_false]
      have h6 : 2 ^ (k + 1) ≠ 1 := by omega
      simp [h6, h4]

theorem isPowerOfTwo_eq_true_of (n : Nat) (h : isPowerOfTwo n = true) :
    ∃ k, n = 2 ^ k := by
  induction n using Nat.strong_induction_on with
  | _ n ih =>
      rw [isPowerOfTwo] at h
      by_cases h0 : n = 0
      · simp [h0] at h
      by_cases h1 : n = 1
      · exact ⟨0, by simpa using h1⟩
      by_cases h2 : n % 2 = 1
      · simp [h0, h1, h2] at h
      simp only [h0, h1, h2, dite_eq_ite, if_false] at h
      have hlt : n / 2 < n := by omega
      obtain ⟨k, hk⟩ := ih (n / 2) hlt h
      exact ⟨k + 1, by omega⟩

theorem trailingZeros_two_pow (k : Nat) : trailingZeros (2 ^ k) = k := by
  induction k with
  | zero => simp [trailingZeros]
  | succ k ih =>
      rw [trailingZeros]
      have h2 : 2 ^ k ≥ 1 := Nat.one_le_two_pow
      have h1 : 2 ^ (k + 1) = 2 ^ k * 2 := by ring
      have h3 : 2 ^ (k + 1) ≠ 0 := by positivity
      have h4 : 2 ^ (k + 1) % 2 = 0 := by omega
      have h5 : 2 ^ (k + 1) / 2 = 2 ^ k := by omega
      simp [h3, h4, h5, ih]

/-- C9: for every power-of-two granule size `G = 2^k`,
`TranslationGranule<G>::MASK = G - 1` and `SHIFT = log2 G = k`; for every
non-power-of-two `G`, evaluating the associated constants fails (the
compile-time `assert!` failure is modelled as `none`). -/
theorem translation_granule_spec (g : Nat) :
    (∀ k, g = 2 ^ k →
      granuleMASK g = some (g - 1) ∧ granuleSHIFT g = some k) ∧
    ((∀ k, g ≠ 2 ^ k) →
      granuleMASK g = none ∧ granuleSHIFT g = none) := by
  constructor
  · intro k hk
    subst hk
    have hp := isPowerOfTwo_two_pow k
    constructor
    · simp [granuleMASK, size_checked, hp]
    · simp [granuleSHIFT, size_checked, hp, trailingZeros_two_pow]
  · intro hnp
    have hp : isPowerOfTwo g = false := by
      by_contra hc
      have : isPowerOfTwo g = true := by
        cases hb : isPowerOfTwo g
        · exact absurd hb hc
        · rfl
      obtain ⟨k, hk⟩ := isPowerOfTwo_eq_true_of g this
      exact hnp k hk
    constructor
    · simp [granuleMASK, size_checked, hp]
    · simp [granuleSHIFT, size_checked, hp]

/-- C9 witness: the associated constants at the concrete power of two 8. -/
theorem translation_granule_spec_witness :
    granuleMASK 8 = some 7 ∧ granuleSHIFT 8 = some 3 :=
  (translation_granule_spec 8).1 3 (by decide)

/-- The BSP's kernel granule size (`bsp::memory::mmu::KernelGranule`, a 64 KiB
granule on this board; the board-support layer is outside the given sources,
the value is a power of two as `TranslationGranule` requires). -/
def KernelGranuleSize : Nat := 65536

/-- `KernelGranule::MASK = SIZE - 1`. -/
def KernelGranuleMask : Nat := KernelGranuleSize - 1

/-- Error string of the facade's MMIO-region policy check (from
`kernel_map_pages_at` in `src/memory/mmu.rs`). -/
def mmioPolicyError : String := "Attempt to manually map into MMIO region"

/-- Modelled from the spec: the capacity-exceeded error of the bounded
mapping record's `add`. -/
def recordFullError : String := "Mapping record full"

/-- Modelled from the spec: the error of `map_pages_at` when the two slices
differ in page count. -/
def pageCountMismatchError : String := "Page count mismatch"

/-- Modelled from the spec: the error of `map_pages_at` when part of the
virtual range is already occupied. -/
def alreadyMappedError : String := "Virtual range already mapped"

/-- Modelled from the spec: the error of `map_pages_at` when the static table
capacity is exhausted. -/
def tableFullError : String := "Translation table capacity exhausted"

/-- Modelled from the spec: the resource-exhaustion error of
`next_mmio_virt_page_slice` once the reserved MMIO sub-region is used up. -/
def mmioExhaustedError : String := "MMIO virtual address space exhausted"

/-- Modelled from the spec: `MMIODescriptor -> PageSliceDescriptor<Physical>`
conversion (`types` submodule): round the start down and the end up to granule
boundaries. -/
def mmioToPhysPages (d : MMIODescriptor) : PageSliceDescriptor AddressKind.physical :=
  let startPage := d.start_addr / KernelGranuleSize
  let endPage := (d.start_addr + d.size + KernelGranuleSize - 1) / KernelGranuleSize
  { start := startPage * KernelGranuleSize, num_pages := endPage - startPage }

/-- The individual page mappings installed for a virtual/physical slice pair:
virtual page `i` is paired with physical page `i`. -/
def pagesOfSlices (virt : PageSliceDescriptor AddressKind.virtual)
    (phys : PageSliceDescriptor AddressKind.physical)
    (attr : AttributeFields) : List TableEntry :=
  (List.range virt.num_pages).map (fun i =>
    { virt_page := virt.start / KernelGranuleSize + i
      phys_page := phys.start / KernelGranuleSize + i
      attr := attr })

/-- Modelled from the spec: `TranslationTable::is_virt_page_slice_mmio`
(`translation_table` submodule): whether the virtual range falls inside the
statically reserved MMIO sub-region. -/
def is_virt_page_slice_mmio (t : TranslationTables)
    (virt : PageSliceDescriptor AddressKind.virtual) : Bool :=
  decide (t.mmio_start_page ≤ virt.start / KernelGranuleSize ∧
    virt.start / KernelGranuleSize + virt.num_pages ≤
      t.mmio_start_page + t.mmio_num_pages)

/-- Modelled from the spec: `TranslationTable::map_pages_at`
(`translation_table` submodule): installs descriptors for every page of the
range, pairing virtual page i with physical page i; fails if the page counts
differ, if the virtual range is already (partially or fully) occupied, or if
the static table capacity is exhausted. -/
def map_pages_at (t : TranslationTables)
    (virt : PageSliceDescriptor AddressKind.virtual)
    (phys : PageSliceDescriptor AddressKind.physical)
    (attr : AttributeFields) : Except String TranslationTables :=
  if virt.num_pages ≠ phys.num_pages then
    .error pageCountMismatchError
  else if (List.range virt.num_pages).any (fun i =>
      t.mappings.any (fun e =>
        decide (e.virt_page = virt.start / KernelGranuleSize + i))) then
    .error alreadyMappedError
  else if t.capacity < t.mappings.length + virt.num_pages then
    .error tableFullError
  else
    .ok { t with mappings := t.mappings ++ pagesOfSlices virt phys attr }

/-- Modelled from the spec: `TranslationTable::next_mmio_virt_page_slice`
(`translation_table` submodule): bump-allocates the next unused virtual page
run of the requested size from the reserved MMIO sub-region, advancing the
cursor; fails once the sub-region is exhausted.  Returns the slice and the
table with the advanced cursor. -/
def next_mmio_virt_page_slice (t : TranslationTables) (num_pages : Nat) :
    Except String (PageSliceDescriptor AddressKind.virtual × TranslationTables) :=
  if t.mmio_num_pages < t.mmio_cursor + num_pages then
    .error mmioExhaustedError
  else
    .ok ({ start := (t.mmio_start_page + t.mmio_cursor) * KernelGranuleSize
           num_pages := num_pages },
         { t with mmio_cursor := t.mmio_cursor + num_pages })

/-- Modelled from the spec: `mapping_record::kernel_add` (`mapping_record`
submodule): appends an entry to the bounded record; fails with a
capacity-exceeded condition when the backing store is full. -/
def mapping_record_add (cap : Nat) (rec : List MappingRecordEntry)
    (e : MappingRecordEntry) : Except String (List MappingRecordEntry) :=
  if cap ≤ rec.length then .error recordFullError
  else .ok (rec ++ [e])

/-- The record-lookup predicate of the MMIO dedup: exact physical-range
equality with the page-aligned form of the descriptor. -/
def physMatches (phys : PageSliceDescriptor AddressKind.physical)
    (e : MappingRecordEntry) : Bool :=
  decide (e.phys = phys)

/-- Modelled from the spec:
`mapping_record::kernel_find_and_insert_mmio_duplicate` (`mapping_record`
submodule): scans the record for an entry whose physical descriptor exactly
equals the page-aligned form of the descriptor; if found, appends a new record
under the new name reusing the same virtual descriptor (the append obeys the
non-fatal capacity policy of `add`: on a full record it only warns) and
returns that entry's virtual start address; otherwise returns none and
performs no mutation. -/
def kernel_find_and_insert_mmio_duplicate (d : MMIODescriptor)
    (new_name : String) (s : KernelState) : Option Nat × KernelState :=
  let phys := mmioToPhysPages d
  match s.record.find? (physMatches phys) with
  | none => (none, s)
  | some e =>
    let e2 : MappingRecordEntry :=
      { name := new_name, virt := e.virt, phys := e.phys, attr := e.attr }
    match mapping_record_add s.record_capacity s.record e2 with
    | .ok r => (some e.virt.start, { s with record := r })
    | .error x =>
        (some e.virt.start,
         { s with warnings := s.warnings ++ [x], lost := s.lost ++ [e2] })

/-- `kernel_map_pages_at_unchecked` from `src/memory/mmu.rs`: map the pages in
the kernel translation tables (under the table write lock), then append a
mapping-record entry; a failing append is only warned about (`warn!`) and the
call still succeeds. -/
def kernel_map_pages_at_unchecked (name : String)
    (virt : PageSliceDescriptor AddressKind.virtual)
    (phys : PageSliceDescriptor AddressKind.physical)
    (attr : AttributeFields) (s : KernelState) :
    Except String Unit × KernelState :=
  match map_pages_at s.tables virt phys attr with
  | .error e => (.error e, s)
  | .ok t =>
    let e1 : MappingRecordEntry :=
      { name := name, virt := virt, phys := phys, attr := attr }
    match mapping_record_add s.record_capacity s.record e1 with
    | .ok r => (.ok (), { s with tables := t, record := r })
    | .error x =>
        (.ok (),
         { s with tables := t, warnings := s.warnings ++ [x],
                  lost := s.lost ++ [e1] })

/-- `kernel_map_pages_at` from `src/memory/mmu.rs`: the guarded raw-mapping
entry point; a virtual slice classified as lying in the reserved MMIO region
is rejected before any mutation. -/
def kernel_map_pages_at (name : String)
    (virt : PageSliceDescriptor AddressKind.virtual)
    (phys : PageSliceDescriptor AddressKind.physical)
    (attr : AttributeFields) (s : KernelState) :
    Except String Unit × KernelState :=
  if is_virt_page_slice_mmio s.tables virt then
    (.error mmioPolicyError, s)
  else
    kernel_map_pages_at_unchecked name virt phys attr s

/-- The fixed attributes of the MMIO fresh-allocation path, exactly as written
in `kernel_map_mmio` in `src/memory/mmu.rs`. -/
def mmioAttributes : AttributeFields :=
  { mem_attributes := MemAttributes.Device
    acc_perms := AccessPermissions.ReadWrite
    execute_never := true }

/-- `kernel_map_mmio` from `src/memory/mmu.rs`: convert the descriptor to a
page-aligned physical slice and remember the sub-page offset
(`start_addr & KernelGranule::MASK`); reuse the virtual slice of an identical
already-recorded physical slice if the dedup lookup hits, otherwise allocate a
fresh MMIO virtual slice and map it with the fixed device attributes; return
the slice start plus the sub-page offset. -/
def kernel_map_mmio (name : String) (d : MMIODescriptor) (s : KernelState) :
    Except String Nat × KernelState :=
  let phys_pages := mmioToPhysPages d
  let offset_into_start_page := d.start_addr &&& KernelGranuleMask
  match kernel_find_and_insert_mmio_duplicate d name s with
  | (some addr, s1) => (.ok (addr + offset_into_start_page), s1)
  | (none, s1) =>
    match next_mmio_virt_page_slice s1.tables phys_pages.num_pages with
    | .error e => (.error e, s1)
    | .ok (virt_pages, t) =>
      let s2 := { s1 with tables := t }
      match kernel_map_pages_at_unchecked name virt_pages phys_pages
          mmioAttributes s2 with
      | (.error e, s3) => (.error e, s3)
      | (.ok _, s3) => (.ok (virt_pages.start + offset_into_start_page), s3)

/-- Modelled from the spec: the architecture MMU driver's
`enable_mmu_and_caching` (`arch_mmu` submodule): the `is_enabled` check is
performed before any register write; when already enabled it fails with
`AlreadyEnabled` and changes nothing, otherwise it programs the table-base
and control registers and becomes enabled. -/
def mmu_enable (hw : MMUHardware) (phys_tables_base : Nat) :
    Except MMUEnableError Unit × MMUHardware :=
  if hw.enabled then
    (.error MMUEnableError.AlreadyEnabled, hw)
  else
    (.ok (),
     { enabled := true, table_base_reg := phys_tables_base,
       control_reg_set := true })

/-- `enable_mmu_and_caching` from `src/memory/mmu.rs`: delegates to the
architecture MMU driver. -/
def enable_mmu_and_caching (phys_tables_base : Nat) (s : KernelState) :
    Except MMUEnableError Unit × KernelState :=
  let r := mmu_enable s.hw phys_tables_base
  (r.1, { s with hw := r.2 })

/-- A boot-time kernel state: empty tables with the given capacity and MMIO
sub-region, empty record with the given capacity, MMU disabled. -/
def initialState (tcap mstart mnum rcap : Nat) : KernelState :=
  { tables :=
      { mappings := [], capacity := tcap, mmio_start_page := mstart,
        mmio_num_pages := mnum, mmio_cursor := 0 },
    record := [], record_capacity := rcap, lost := [], warnings := [],
    hw := { enabled := false, table_base_reg := 0, control_reg_set := false } }

/-- Sample hardware state for concrete instantiations. -/
def sampleHW : MMUHardware :=
  { enabled := false, table_base_reg := 0, control_reg_set := false }

/-- Sample translation tables: empty, capacity 16, MMIO region of 8 pages at
page 100. -/
def sampleTables : TranslationTables :=
  { mappings := [], capacity := 16, mmio_start_page := 100, mmio_num_pages := 8,
    mmio_cursor := 0 }

/-- Sample kernel state for concrete instantiations. -/
def sampleState : KernelState :=
  { tables := sampleTables, record := [], record_capacity := 4, lost := [],
    warnings := [], hw := sampleHW }

/-- Sample driver name. -/
def wName : String := "driver_a"

/-- A virtual page slice lying inside `sampleTables`' reserved MMIO region. -/
def wVirtInMmio : PageSliceDescriptor AddressKind.virtual :=
  { start := 100 * 65536, num_pages := 2 }

/-- A sample physical page slice. -/
def wPhys : PageSliceDescriptor AddressKind.physical :=
  { start := 3 * 65536, num_pages := 2 }

/-- Sample mapping attributes. -/
def wAttr : AttributeFields :=
  { mem_attributes := MemAttributes.CacheableDRAM,
    acc_perms := AccessPermissions.ReadWrite, execute_never := false }

/-- C1: a `kernel_map_pages_at` call whose virtual slice is classified as
lying in the reserved MMIO region returns the MMIO-policy error and performs
no mutation at all: the returned state is exactly the input state (tables and
mapping record untouched). -/
theorem kernel_map_pages_at_rejects_mmio (name : String)
    (virt : PageSliceDescriptor AddressKind.virtual)
    (phys : PageSliceDescriptor AddressKind.physical)
    (attr : AttributeFields) (s : KernelState)
    (h : is_virt_page_slice_mmio s.tables virt = true) :
    kernel_map_pages_at name virt phys attr s = (.error mmioPolicyError, s) := by
  simp [kernel_map_pages_at, h]

/-- C1 witness: the guard fires on a concrete slice inside the reserved MMIO
region of a concrete state. -/
theorem kernel_map_pages_at_rejects_mmio_witness :
    kernel_map_pages_at wName wVirtInMmio wPhys wAttr sampleState =
      (.error mmioPolicyError, sampleState) :=
  kernel_map_pages_at_rejects_mmio wName wVirtInMmio wPhys wAttr sampleState
    (by decide)

/-- C4: once a call to `enable_mmu_and_caching` has succeeded, the hardware
is enabled and every subsequent call fails with `AlreadyEnabled`, leaving the
hardware control state (and the whole kernel state) unchanged — the
`is_enabled` guard fires before any register write. -/
theorem enable_mmu_at_most_once (b1 : Nat) (s s1 : KernelState)
    (h : enable_mmu_and_caching b1 s = (.ok (), s1)) :
    s1.hw.enabled = true ∧
    ∀ b2, enable_mmu_and_caching b2 s1 =
      (.error MMUEnableError.AlreadyEnabled, s1) := by
  have hs1 : s1.hw.enabled = true := by
    unfold enable_mmu_and_caching mmu_enable at h
    by_cases he : s.hw.enabled
    · simp [he] at h
    · simp [he] at h
      rw [← h]
  refine ⟨hs1, fun b2 => ?_⟩
  unfold enable_mmu_and_caching mmu_enable
  simp [hs1]

/-- C4 witness: enabling twice from a concrete disabled state; the second
call fails with `AlreadyEnabled` and returns the state unchanged. -/
theorem enable_mmu_at_most_once_witness :
    ((enable_mmu_and_caching 5 sampleState).2.hw.enabled = true) ∧
    ∀ b2, enable_mmu_and_caching b2 ((enable_mmu_and_caching 5 sampleState).2) =
      (.error MMUEnableError.AlreadyEnabled,
       (enable_mmu_and_caching 5 sampleState).2) :=
  enable_mmu_at_most_once 5 sampleState ((enable_mmu_and_caching 5 sampleState).2)
    rfl

/-- C6: when the translation-table mutation succeeds but the bounded mapping
record is full, `kernel_map_pages_at_unchecked` still returns success, the
mapping is installed in the tables, the record is unchanged, and the failure
surfaces only as an appended warning (the dropped entry is kept in the model's
`lost` ghost list). -/
theorem record_full_is_nonfatal (name : String)
    (virt : PageSliceDescriptor AddressKind.virtual)
    (phys : PageSliceDescriptor AddressKind.physical)
    (attr : AttributeFields) (s : KernelState) (t : TranslationTables)
    (hmap : map_pages_at s.tables virt phys attr = .ok t)
    (hfull : s.record_capacity ≤ s.record.length) :
    kernel_map_pages_at_unchecked name virt phys attr s =
      (.ok (),
       { s with tables := t, warnings := s.warnings ++ [recordFullError],
                lost := s.lost ++
                  [{ name := name, virt := virt, phys := phys, attr := attr }] }) := by
  simp [kernel_map_pages_at_unchecked, hmap, mapping_record_add, hfull]

/-- A concrete state whose mapping record is full (capacity 0). -/
def fullRecordState : KernelState :=
  { tables := sampleTables, record := [], record_capacity := 0, lost := [],
    warnings := [], hw := sampleHW }

/-- A sample virtual page slice outside the reserved MMIO region. -/
def wVirt0 : PageSliceDescriptor AddressKind.virtual :=
  { start := 0, num_pages := 2 }

/-- The entry dropped in the C6 witness. -/
def wLostEntry : MappingRecordEntry :=
  { name := wName, virt := wVirt0, phys := wPhys, attr := wAttr }

/-- The tables after the C6 witness mapping. -/
def wTables6 : TranslationTables :=
  { sampleTables with mappings := pagesOfSlices wVirt0 wPhys wAttr }

/-- C6 witness: a concrete mapping into a full-record state succeeds, keeps
the installed mapping and only warns. -/
theorem record_full_is_nonfatal_witness :
    kernel_map_pages_at_unchecked wName wVirt0 wPhys wAttr fullRecordState =
      (.ok (),
       { fullRecordState with tables := wTables6,
                              warnings := [recordFullError],
                              lost := [wLostEntry] }) :=
  record_full_is_nonfatal wName wVirt0 wPhys wAttr fullRecordState wTables6
    rfl (by decide)

/-- C10: on the fresh-allocation path, when `next_mmio_virt_page_slice`
succeeds but the subsequent `map_pages_at` fails, `kernel_map_mmio` returns
the error without reclaiming the allocated MMIO virtual slice: the cursor
stays advanced while the table mappings and the record are untouched. -/
theorem kernel_map_mmio_error_keeps_cursor (name : String) (d : MMIODescriptor)
    (s : KernelState) (err : String)
    (hfind : s.record.find? (physMatches (mmioToPhysPages d)) = none)
    (halloc : s.tables.mmio_cursor + (mmioToPhysPages d).num_pages ≤
      s.tables.mmio_num_pages)
    (hmapfail : map_pages_at
        { s.tables with mmio_cursor :=
            s.tables.mmio_cursor + (mmioToPhysPages d).num_pages }
        { start := (s.tables.mmio_start_page + s.tables.mmio_cursor) *
            KernelGranuleSize,
          num_pages := (mmioToPhysPages d).num_pages }
        (mmioToPhysPages d) mmioAttributes = .error err) :
    kernel_map_mmio name d s =
      (.error err,
       { s with tables :=
           { s.tables with mmio_cursor :=
               s.tables.mmio_cursor + (mmioToPhysPages d).num_pages } }) ∧
    ({ s.tables with mmio_cursor :=
         s.tables.mmio_cursor +
           (mmioToPhysPages d).num_pages } : TranslationTables).mappings =
      s.tables.mappings := by
  have hlt : ¬ (s.tables.mmio_num_pages <
      s.tables.mmio_cursor + (mmioToPhysPages d).num_pages) := by omega
  constructor
  · simp [kernel_map_mmio, kernel_find_and_insert_mmio_duplicate, hfind,
      next_mmio_virt_page_slice, hlt, kernel_map_pages_at_unchecked, hmapfail]
  · rfl

/-- The record entry the MMIO dedup path appends: the found entry under the
new owner name. -/
def dupEntry (name : String) (e : MappingRecordEntry) : MappingRecordEntry :=
  { name := name, virt := e.virt, phys := e.phys, attr := e.attr }

/-- The record entry a raw mapping appends. -/
def newEntry (name : String) (virt : PageSliceDescriptor AddressKind.virtual)
    (phys : PageSliceDescriptor AddressKind.physical)
    (attr : AttributeFields) : MappingRecordEntry :=
  { name := name, virt := virt, phys := phys, attr := attr }

theorem next_mmio_ok_inversion (t : TranslationTables) (n : Nat)
    (v : PageSliceDescriptor AddressKind.virtual) (t' : TranslationTables)
    (h : next_mmio_virt_page_slice t n = .ok (v, t')) :
    v = { start := (t.mmio_start_page + t.mmio_cursor) * KernelGranuleSize,
          num_pages := n } ∧
    t' = { t with mmio_cursor := t.mmio_cursor + n } ∧
    t.mmio_cursor + n ≤ t.mmio_num_pages := by
  unfold next_mmio_virt_page_slice at h
  by_cases hx : t.mmio_num_pages < t.mmio_cursor + n
  · simp [hx] at h
  · simp [hx] at h
    exact ⟨h.1.symm, h.2.symm, by omega⟩

theorem map_pages_at_ok_inversion (t : TranslationTables)
    (virt : PageSliceDescriptor AddressKind.virtual)
    (phys : PageSliceDescriptor AddressKind.physical)
    (attr : AttributeFields) (t2 : TranslationTables)
    (h : map_pages_at t virt phys attr = .ok t2) :
    t2 = { t with mappings := t.mappings ++ pagesOfSlices virt phys attr } := by
  unfold map_pages_at at h
  by_cases h1 : virt.num_pages ≠ phys.num_pages
  · simp [h1] at h
  · by_cases h2 : (List.range virt.num_pages).any (fun i =>
        t.mappings.any (fun e =>
          decide (e.virt_page = virt.start / KernelGranuleSize + i)))
    · simp [h1, h2] at h
    · by_cases h3 : t.capacity < t.mappings.length + virt.num_pages
      · simp [h1, h2, h3] at h
      · simp [h1, h2, h3] at h
        exact h.symm

theorem unchecked_fail_eq (name : String)
    (virt : PageSliceDescriptor AddressKind.virtual)
    (phys : PageSliceDescriptor AddressKind.physical)
    (attr : AttributeFields) (s : KernelState) (err : String)
    (hmp : map_pages_at s.tables virt phys attr = .error err) :
    kernel_map_pages_at_unchecked name virt phys attr s = (.error err, s) := by
  simp [kernel_map_pages_at_unchecked, hmp]

theorem unchecked_ok_eq (name : String)
    (virt : PageSliceDescriptor AddressKind.virtual)
    (phys : PageSliceDescriptor AddressKind.physical)
    (attr : AttributeFields) (s : KernelState) (t2 : TranslationTables)
    (hmp : map_pages_at s.tables virt phys attr = .ok t2) :
    kernel_map_pages_at_unchecked name virt phys attr s =
      (.ok (),
       if s.record_capacity ≤ s.record.length then
         { s with tables := t2, warnings := s.warnings ++ [recordFullError],
                  lost := s.lost ++ [newEntry name virt phys attr] }
       else
         { s with tables := t2,
                  record := s.record ++ [newEntry name virt phys attr] }) := by
  by_cases hc : s.record_capacity ≤ s.record.length
  · simp [kernel_map_pages_at_unchecked, hmp, mapping_record_add, hc, newEntry]
  · simp [kernel_map_pages_at_unchecked, hmp, mapping_record_add, hc, newEntry]

theorem kernel_map_mmio_dedup_eq (name : String) (d : MMIODescriptor)
    (s : KernelState) (e : MappingRecordEntry)
    (hfind : s.record.find? (physMatches (mmioToPhysPages d)) = some e) :
    kernel_map_mmio name d s =
      (.ok (e.virt.start + (d.start_addr &&& KernelGranuleMask)),
       if s.record_capacity ≤ s.record.length then
         { s with warnings := s.warnings ++ [recordFullError],
                  lost := s.lost ++ [dupEntry name e] }
       else
         { s with record := s.record ++ [dupEntry name e] }) := by
  by_cases hc : s.record_capacity ≤ s.record.length
  · simp [kernel_map_mmio, kernel_find_and_insert_mmio_duplicate, hfind,
      mapping_record_add, hc, dupEntry]
  · simp [kernel_map_mmio, kernel_find_and_insert_mmio_duplicate, hfind,
      mapping_record_add, hc, dupEntry]

theorem kernel_map_mmio_alloc_fail_eq (name : String) (d : MMIODescriptor)
    (s : KernelState) (err : String)
    (hfind : s.record.find? (physMatches (mmioToPhysPages d)) = none)
    (hnm : next_mmio_virt_page_slice s.tables (mmioToPhysPages d).num_pages =
      .error err) :
    kernel_map_mmio name d s = (.error err, s) := by
  simp [kernel_map_mmio, kernel_find_and_insert_mmio_duplicate, hfind, hnm]

theorem kernel_map_mmio_map_fail_eq (name : String) (d : MMIODescriptor)
    (s : KernelState) (v : PageSliceDescriptor AddressKind.virtual)
    (t' : TranslationTables) (err : String)
    (hfind : s.record.find? (physMatches (mmioToPhysPages d)) = none)
    (hnm : next_mmio_virt_page_slice s.tables (mmioToPhysPages d).num_pages =
      .ok (v, t'))
    (hmp : map_pages_at t' v (mmioToPhysPages d) mmioAttributes = .error err) :
    kernel_map_mmio name d s = (.error err, { s with tables := t' }) := by
  have h2 : map_pages_at ({ s with tables := t' } : KernelState).tables v
      (mmioToPhysPages d) mmioAttributes = .error err := hmp
  simp [kernel_map_mmio, kernel_find_and_insert_mmio_duplicate, hfind, hnm,
    unchecked_fail_eq name v (mmioToPhysPages d) mmioAttributes _ err h2]

theorem kernel_map_mmio_fresh_eq (name : String) (d : MMIODescriptor)
    (s : KernelState) (v : PageSliceDescriptor AddressKind.virtual)
    (t' t2 : TranslationTables)
    (hfind : s.record.find? (physMatches (mmioToPhysPages d)) = none)
    (hnm : next_mmio_virt_page_slice s.tables (mmioToPhysPages d).num_pages =
      .ok (v, t'))
    (hmp : map_pages_at t' v (mmioToPhysPages d) mmioAttributes = .ok t2) :
    kernel_map_mmio name d s =
      (.ok (v.start + (d.start_addr &&& KernelGranuleMask)),
       if s.record_capacity ≤ s.record.length then
         { s with tables := t2, warnings := s.warnings ++ [recordFullError],
                  lost := s.lost ++
                    [newEntry name v (mmioToPhysPages d) mmioAttributes] }
       else
         { s with tables := t2,
                  record := s.record ++
                    [newEntry name v (mmioToPhysPages d) mmioAttributes] }) := by
  have h2 : map_pages_at ({ s with tables := t' } : KernelState).tables v
      (mmioToPhysPages d) mmioAttributes = .ok t2 := hmp
  have h3 := unchecked_ok_eq name v (mmioToPhysPages d) mmioAttributes
    { s with tables := t' } t2 h2
  by_cases hc : s.record_capacity ≤ s.record.length
  · simp only [hc, if_true] at h3 ⊢
    simp [kernel_map_mmio, kernel_find_and_insert_mmio_duplicate, hfind, hnm, h3]
  · simp only [hc, if_false] at h3 ⊢
    simp [kernel_map_mmio, kernel_find_and_insert_mmio_duplicate, hfind, hnm, h3]

/-- C3: a successful `kernel_map_mmio` returns the start address of the used
virtual page slice plus the descriptor start's sub-page offset within the
kernel granule (`start_addr & KernelGranule::MASK`): on the dedup-hit path the
slice is the one recorded for the duplicate, on the fresh-allocation path it
is the slice at the current MMIO allocation cursor. -/
theorem kernel_map_mmio_exact_addr (name : String) (d : MMIODescriptor)
    (s : KernelState) (a : Nat) (s' : KernelState)
    (h : kernel_map_mmio name d s = (.ok a, s')) :
    (∃ e, s.record.find? (physMatches (mmioToPhysPages d)) = some e ∧
      a = e.virt.start + (d.start_addr &&& KernelGranuleMask)) ∨
    (s.record.find? (physMatches (mmioToPhysPages d)) = none ∧
      a = (s.tables.mmio_start_page + s.tables.mmio_cursor) * KernelGranuleSize +
        (d.start_addr &&& KernelGranuleMask)) := by
  cases hfind : s.record.find? (physMatches (mmioToPhysPages d)) with
  | some e =>
      rw [kernel_map_mmio_dedup_eq name d s e hfind] at h
      have h1 : Except.ok (ε := String)
          (e.virt.start + (d.start_addr &&& KernelGranuleMask)) = .ok a :=
        congrArg Prod.fst h
      exact Or.inl ⟨e, rfl, (Except.ok.inj h1).symm⟩
  | none =>
      refine Or.inr ⟨rfl, ?_⟩
      cases hnm : next_mmio_virt_page_slice s.tables
          (mmioToPhysPages d).num_pages with
      | error err =>
          rw [kernel_map_mmio_alloc_fail_eq name d s err hfind hnm] at h
          exact absurd (congrArg Prod.fst h) (by simp)
      | ok vt =>
          obtain ⟨v, t'⟩ := vt
          cases hmp : map_pages_at t' v (mmioToPhysPages d) mmioAttributes with
          | error err =>
              rw [kernel_map_mmio_map_fail_eq name d s v t' err hfind hnm hmp]
                at h
              exact absurd (congrArg Prod.fst h) (by simp)
          | ok t2 =>
              rw [kernel_map_mmio_fresh_eq name d s v t' t2 hfind hnm hmp] at h
              have h1 : Except.ok (ε := String)
                  (v.start + (d.start_addr &&& KernelGranuleMask)) = .ok a :=
                congrArg Prod.fst h
              have hv := (next_mmio_ok_inversion s.tables _ v t' hnm).1
              rw [← Except.ok.inj h1, hv]

/-- The MMIO descriptor used by the concrete instantiations: 4 bytes at
offset 16 into physical page 3. -/
def wMmioDesc : MMIODescriptor := { start_addr := 3 * 65536 + 16, size := 4 }

/-- C3 witness: on the concrete fresh-path call the returned address is the
allocated slice start (page 100) plus the sub-page offset 16. -/
theorem kernel_map_mmio_exact_addr_witness :
    (∃ e, sampleState.record.find? (physMatches (mmioToPhysPages wMmioDesc)) =
        some e ∧
      6553616 = e.virt.start + (wMmioDesc.start_addr &&& KernelGranuleMask)) ∨
    (sampleState.record.find? (physMatches (mmioToPhysPages wMmioDesc)) =
        none ∧
      6553616 = (sampleState.tables.mmio_start_page +
          sampleState.tables.mmio_cursor) * KernelGranuleSize +
        (wMmioDesc.start_addr &&& KernelGranuleMask)) :=
  kernel_map_mmio_exact_addr wName wMmioDesc sampleState 6553616
    (kernel_map_mmio wName wMmioDesc sampleState).2 rfl

/-- C7: with the reserved MMIO virtual sub-region exhausted, a
`kernel_map_mmio` request (of at least one page) whose physical range is not
in the record fails with the resource-exhaustion error and changes nothing,
while a request whose page-aligned physical range matches a recorded entry
still succeeds — returning that entry's address — and consumes no MMIO
virtual space (the translation tables, cursor included, are untouched). -/
theorem kernel_map_mmio_exhaustion (name : String) (d : MMIODescriptor)
    (s : KernelState)
    (hn : 1 ≤ (mmioToPhysPages d).num_pages) :
    (s.record.find? (physMatches (mmioToPhysPages d)) = none →
      s.tables.mmio_num_pages ≤ s.tables.mmio_cursor →
      kernel_map_mmio name d s = (.error mmioExhaustedError, s)) ∧
    (∀ e, s.record.find? (physMatches (mmioToPhysPages d)) = some e →
      (kernel_map_mmio name d s).1 =
        .ok (e.virt.start + (d.start_addr &&& KernelGranuleMask)) ∧
      (kernel_map_mmio name d s).2.tables = s.tables) := by
  constructor
  · intro hfind hexh
    have hnm : next_mmio_virt_page_slice s.tables
        (mmioToPhysPages d).num_pages = .error mmioExhaustedError := by
      unfold next_mmio_virt_page_slice
      have hlt : s.tables.mmio_num_pages <
          s.tables.mmio_cursor + (mmioToPhysPages d).num_pages := by omega
      simp [hlt]
    exact kernel_map_mmio_alloc_fail_eq name d s mmioExhaustedError hfind hnm
  · intro e hfind
    rw [kernel_map_mmio_dedup_eq name d s e hfind]
    by_cases hc : s.record_capacity ≤ s.record.length
    · rw [if_pos hc]
      exact ⟨rfl, rfl⟩
    · rw [if_neg hc]
      exact ⟨rfl, rfl⟩

/-- A concrete state whose reserved MMIO sub-region is fully used up
(cursor at the end) and whose record is empty. -/
def exhaustedState : KernelState :=
  { tables :=
      { mappings := [], capacity := 16, mmio_start_page := 100,
        mmio_num_pages := 8, mmio_cursor := 8 },
    record := [], record_capacity := 4, lost := [], warnings := [],
    hw := sampleHW }

/-- C7 witness: the exhaustion dichotomy instantiated at a concrete
exhausted state. -/
theorem kernel_map_mmio_exhaustion_witness :
    (exhaustedState.record.find? (physMatches (mmioToPhysPages wMmioDesc)) =
        none →
      exhaustedState.tables.mmio_num_pages ≤
        exhaustedState.tables.mmio_cursor →
      kernel_map_mmio wName wMmioDesc exhaustedState =
        (.error mmioExhaustedError, exhaustedState)) ∧
    (∀ e, exhaustedState.record.find?
        (physMatches (mmioToPhysPages wMmioDesc)) = some e →
      (kernel_map_mmio wName wMmioDesc exhaustedState).1 =
        .ok (e.virt.start + (wMmioDesc.start_addr &&& KernelGranuleMask)) ∧
      (kernel_map_mmio wName wMmioDesc exhaustedState).2.tables =
        exhaustedState.tables) :=
  kernel_map_mmio_exhaustion wName wMmioDesc exhaustedState (by decide)

/-- C8: every page mapping installed through `kernel_map_mmio`'s
fresh-allocation path carries exactly the fixed attribute set — device memory,
read-write, execute-never — whatever the caller and descriptor are. -/
theorem kernel_map_mmio_fresh_attrs (name : String) (d : MMIODescriptor)
    (s : KernelState) (a : Nat) (s' : KernelState)
    (hfind : s.record.find? (physMatches (mmioToPhysPages d)) = none)
    (h : kernel_map_mmio name d s = (.ok a, s')) :
    ∀ te ∈ s'.tables.mappings, te ∉ s.tables.mappings →
      te.attr = mmioAttributes := by
  cases hnm : next_mmio_virt_page_slice s.tables
      (mmioToPhysPages d).num_pages with
  | error err =>
      rw [kernel_map_mmio_alloc_fail_eq name d s err hfind hnm] at h
      exact absurd (congrArg Prod.fst h) (by simp)
  | ok vt =>
      obtain ⟨v, t'⟩ := vt
      cases hmp : map_pages_at t' v (mmioToPhysPages d) mmioAttributes with
      | error err =>
          rw [kernel_map_mmio_map_fail_eq name d s v t' err hfind hnm hmp] at h
          exact absurd (congrArg Prod.fst h) (by simp)
      | ok t2 =>
          rw [kernel_map_mmio_fresh_eq name d s v t' t2 hfind hnm hmp] at h
          have ht2 := map_pages_at_ok_inversion t' v (mmioToPhysPages d)
            mmioAttributes t2 hmp
          have ht' := (next_mmio_ok_inversion s.tables _ v t' hnm).2.1
          have hs'tab : s'.tables = t2 := by
            by_cases hc : s.record_capacity ≤ s.record.length
            · rw [if_pos hc] at h
              have h2 : ({ s with
                            tables := t2,
                            warnings := s.warnings ++ [recordFullError],
                            lost := s.lost ++ [newEntry name v
                              (mmioToPhysPages d) mmioAttributes] } :
                  KernelState) = s' :=
                congrArg Prod.snd h
              rw [← h2]
            · rw [if_neg hc] at h
              have h2 : ({ s with
                            tables := t2,
                            record := s.record ++ [newEntry name v
                              (mmioToPhysPages d) mmioAttributes] } :
                  KernelState) = s' :=
                congrArg Prod.snd h
              rw [← h2]
          intro te hmem hnot
          rw [hs'tab, ht2] at hmem
          have hmem2 : te ∈ t'.mappings ++
              pagesOfSlices v (mmioToPhysPages d) mmioAttributes := hmem
          rcases List.mem_append.mp hmem2 with hin | hin
          · rw [ht'] at hin
            exact absurd hin hnot
          · simp only [pagesOfSlices, List.mem_map, List.mem_range] at hin
            obtain ⟨i, _, hi⟩ := hin
            rw [← hi]

/-- C8 witness: the one table entry the concrete fresh-path call installs
(virtual page 100 onto physical page 3) carries the fixed device attributes. -/
theorem kernel_map_mmio_fresh_attrs_witness :
    ({ virt_page := 100, phys_page := 3, attr := mmioAttributes } :
      TableEntry).attr = mmioAttributes :=
  kernel_map_mmio_fresh_attrs wName wMmioDesc sampleState 6553616
    (kernel_map_mmio wName wMmioDesc sampleState).2 rfl rfl
    { virt_page := 100, phys_page := 3, attr := mmioAttributes }
    (by decide) (by decide)

/-- C2: when a `kernel_map_mmio` call for a descriptor succeeded (with at
least two free record slots, so no bookkeeping is dropped), a second call with
the byte-identical descriptor under a different name succeeds with the very
same virtual address, and afterwards the record holds two entries with the two
distinct names and identical virtual and physical page-slice descriptors. -/
theorem kernel_map_mmio_dedup_same_addr (name1 name2 : String)
    (d : MMIODescriptor) (s s1 : KernelState) (a1 : Nat)
    (hcap : s.record.length + 2 ≤ s.record_capacity)
    (hne : name1 ≠ name2)
    (h1 : kernel_map_mmio name1 d s = (.ok a1, s1)) :
    ∃ s2, kernel_map_mmio name2 d s1 = (.ok a1, s2) ∧
      ∃ e1, e1 ∈ s2.record ∧ ∃ e2, e2 ∈ s2.record ∧
        e1.name = name1 ∧ e2.name = name2 ∧
        e1.virt = e2.virt ∧ e1.phys = e2.phys := by
  have hc1 : ¬ (s.record_capacity ≤ s.record.length) := by omega
  cases hfind : s.record.find? (physMatches (mmioToPhysPages d)) with
  | some e =>
      rw [kernel_map_mmio_dedup_eq name1 d s e hfind, if_neg hc1] at h1
      have ha : e.virt.start + (d.start_addr &&& KernelGranuleMask) = a1 :=
        Except.ok.inj (congrArg Prod.fst h1)
      have hs1 : ({ s with record := s.record ++ [dupEntry name1 e] } :
          KernelState) = s1 :=
        congrArg Prod.snd h1
      have hfind2 : s1.record.find? (physMatches (mmioToPhysPages d)) =
          some e := by
        rw [← hs1]
        show (s.record ++ [dupEntry name1 e]).find?
          (physMatches (mmioToPhysPages d)) = some e
        rw [List.find?_append, hfind]
        rfl
      have hc2 : ¬ (s1.record_capacity ≤ s1.record.length) := by
        rw [← hs1]
        show ¬ (s.record_capacity ≤ (s.record ++ [dupEntry name1 e]).length)
        simp only [List.length_append, List.length_singleton]
        omega
      refine ⟨{ s1 with record := s1.record ++ [dupEntry name2 e] }, ?_, ?_⟩
      · rw [kernel_map_mmio_dedup_eq name2 d s1 e hfind2, if_neg hc2, ha]
      · refine ⟨dupEntry name1 e, ?_, dupEntry name2 e, ?_, rfl, rfl, rfl, rfl⟩
        · show dupEntry name1 e ∈ s1.record ++ [dupEntry name2 e]
          rw [← hs1]
          show dupEntry name1 e ∈
            (s.record ++ [dupEntry name1 e]) ++ [dupEntry name2 e]
          simp
        · show dupEntry name2 e ∈ s1.record ++ [dupEntry name2 e]
          simp
  | none =>
      cases hnm : next_mmio_virt_page_slice s.tables
          (mmioToPhysPages d).num_pages with
      | error err =>
          rw [kernel_map_mmio_alloc_fail_eq name1 d s err hfind hnm] at h1
          exact absurd (congrArg Prod.fst h1) (by simp)
      | ok vt =>
          obtain ⟨v, t'⟩ := vt
          cases hmp : map_pages_at t' v (mmioToPhysPages d) mmioAttributes with
          | error err =>
              rw [kernel_map_mmio_map_fail_eq name1 d s v t' err hfind hnm hmp]
                at h1
              exact absurd (congrArg Prod.fst h1) (by simp)
          | ok t2 =>
              rw [kernel_map_mmio_fresh_eq name1 d s v t' t2 hfind hnm hmp,
                if_neg hc1] at h1
              have ha : v.start + (d.start_addr &&& KernelGranuleMask) = a1 :=
                Except.ok.inj (congrArg Prod.fst h1)
              have hs1 : ({ s with
                              tables := t2,
                              record := s.record ++ [newEntry name1 v
                                (mmioToPhysPages d) mmioAttributes] } :
                  KernelState) = s1 :=
                congrArg Prod.snd h1
              have hfind2 : s1.record.find? (physMatches (mmioToPhysPages d)) =
                  some (newEntry name1 v (mmioToPhysPages d) mmioAttributes) := by
                rw [← hs1]
                show (s.record ++ [newEntry name1 v (mmioToPhysPages d)
                    mmioAttributes]).find? (physMatches (mmioToPhysPages d)) =
                  some (newEntry name1 v (mmioToPhysPages d) mmioAttributes)
                rw [List.find?_append, hfind]
                simp [physMatches, newEntry]
              have hc2 : ¬ (s1.record_capacity ≤ s1.record.length) := by
                rw [← hs1]
                show ¬ (s.record_capacity ≤ (s.record ++ [newEntry name1 v
                  (mmioToPhysPages d) mmioAttributes]).length)
                simp only [List.length_append, List.length_singleton]
                omega
              refine ⟨{ s1 with record := s1.record ++ [dupEntry name2
                (newEntry name1 v (mmioToPhysPages d) mmioAttributes)] },
                ?_, ?_⟩
              · rw [kernel_map_mmio_dedup_eq name2 d s1
                  (newEntry name1 v (mmioToPhysPages d) mmioAttributes) hfind2,
                  if_neg hc2]
                show (Except.ok ((newEntry name1 v (mmioToPhysPages d)
                    mmioAttributes).virt.start +
                    (d.start_addr &&& KernelGranuleMask)), _) = _
                rw [show (newEntry name1 v (mmioToPhysPages d)
                    mmioAttributes).virt.start = v.start from rfl, ha]
              · refine ⟨newEntry name1 v (mmioToPhysPages d) mmioAttributes,
                  ?_, dupEntry name2 (newEntry name1 v (mmioToPhysPages d)
                    mmioAttributes), ?_, rfl, rfl, rfl, rfl⟩
                · show newEntry name1 v (mmioToPhysPages d) mmioAttributes ∈
                    s1.record ++ [dupEntry name2 (newEntry name1 v
                      (mmioToPhysPages d) mmioAttributes)]
                  rw [← hs1]
                  show newEntry name1 v (mmioToPhysPages d) mmioAttributes ∈
                    (s.record ++ [newEntry name1 v (mmioToPhysPages d)
                      mmioAttributes]) ++ [dupEntry name2 (newEntry name1 v
                      (mmioToPhysPages d) mmioAttributes)]
                  simp
                · show dupEntry name2 (newEntry name1 v (mmioToPhysPages d)
                    mmioAttributes) ∈ s1.record ++ [dupEntry name2 (newEntry
                      name1 v (mmioToPhysPages d) mmioAttributes)]
                  simp

/-- The second driver name of the C2 witness. -/
def wName2 : String := "driver_b"

/-- C2 witness: two concrete calls with the same descriptor under two names;
the second returns the same address and both entries are in the record. -/
theorem kernel_map_mmio_dedup_same_addr_witness :
    ∃ s2, kernel_map_mmio wName2 wMmioDesc
        ((kernel_map_mmio wName wMmioDesc sampleState).2) = (.ok 6553616, s2) ∧
      ∃ e1, e1 ∈ s2.record ∧ ∃ e2, e2 ∈ s2.record ∧
        e1.name = wName ∧ e2.name = wName2 ∧
        e1.virt = e2.virt ∧ e1.phys = e2.phys :=
  kernel_map_mmio_dedup_same_addr wName wName2 wMmioDesc sampleState
    ((kernel_map_mmio wName wMmioDesc sampleState).2) 6553616
    (by decide) (by decide) rfl

/-- The individual page mappings a record entry stands for. -/
def entryPages (e : MappingRecordEntry) : List TableEntry :=
  pagesOfSlices e.virt e.phys e.attr

/-- Mutual consistency of the mapping record and the translation table:
every record entry's pages are installed in the table, and every installed
table mapping is accounted for by an entry of the record or by an entry lost
on the explicit capacity-exceeded warning path. -/
def consistent (s : KernelState) : Prop :=
  (∀ e ∈ s.record, ∀ te ∈ entryPages e, te ∈ s.tables.mappings) ∧
  (∀ te ∈ s.tables.mappings, ∃ e, e ∈ s.record ++ s.lost ∧ te ∈ entryPages e)

/-- The states reachable from a boot state through the facade operations. -/
inductive Reachable : KernelState → Prop
| boot (tcap mstart mnum rcap : Nat) :
    Reachable (initialState tcap mstart mnum rcap)
| map_pages (name : String) (virt : PageSliceDescriptor AddressKind.virtual)
    (phys : PageSliceDescriptor AddressKind.physical)
    (attr : AttributeFields) (s : KernelState) :
    Reachable s → Reachable (kernel_map_pages_at name virt phys attr s).2
| map_mmio (name : String) (d : MMIODescriptor) (s : KernelState) :
    Reachable s → Reachable (kernel_map_mmio name d s).2
| enable (b : Nat) (s : KernelState) :
    Reachable s → Reachable (enable_mmu_and_caching b s).2

theorem unchecked_preserves_consistent (name : String)
    (virt : PageSliceDescriptor AddressKind.virtual)
    (phys : PageSliceDescriptor AddressKind.physical)
    (attr : AttributeFields) (s : KernelState) (h : consistent s) :
    consistent (kernel_map_pages_at_unchecked name virt phys attr s).2 := by
  obtain ⟨hA, hB⟩ := h
  cases hmp : map_pages_at s.tables virt phys attr with
  | error err =>
      rw [unchecked_fail_eq name virt phys attr s err hmp]
      exact ⟨hA, hB⟩
  | ok t2 =>
      rw [unchecked_ok_eq name virt phys attr s t2 hmp]
      have ht2 := map_pages_at_ok_inversion s.tables virt phys attr t2 hmp
      subst ht2
      by_cases hc : s.record_capacity ≤ s.record.length
      · rw [if_pos hc]
        refine ⟨?_, ?_⟩
        · intro e he te hte
          show te ∈ s.tables.mappings ++ pagesOfSlices virt phys attr
          exact List.mem_append_left _ (hA e he te hte)
        · intro te hte
          have hte2 : te ∈ s.tables.mappings ++ pagesOfSlices virt phys attr :=
            hte
          rcases List.mem_append.mp hte2 with hin | hin
          · obtain ⟨e, he, hpe⟩ := hB te hin
            refine ⟨e, ?_, hpe⟩
            show e ∈ s.record ++ (s.lost ++ [newEntry name virt phys attr])
            rcases List.mem_append.mp he with h1 | h1
            · exact List.mem_append_left _ h1
            · exact List.mem_append_right _ (List.mem_append_left _ h1)
          · refine ⟨newEntry name virt phys attr, ?_, hin⟩
            show newEntry name virt phys attr ∈
              s.record ++ (s.lost ++ [newEntry name virt phys attr])
            simp
      · rw [if_neg hc]
        refine ⟨?_, ?_⟩
        · intro e he te hte
          show te ∈ s.tables.mappings ++ pagesOfSlices virt phys attr
          have he2 : e ∈ s.record ++ [newEntry name virt phys attr] := he
          rcases List.mem_append.mp he2 with h1 | h1
          · exact List.mem_append_left _ (hA e h1 te hte)
          · have : e = newEntry name virt phys attr := by simpa using h1
            subst this
            exact List.mem_append_right _ hte
        · intro te hte
          have hte2 : te ∈ s.tables.mappings ++ pagesOfSlices virt phys attr :=
            hte
          rcases List.mem_append.mp hte2 with hin | hin
          · obtain ⟨e, he, hpe⟩ := hB te hin
            refine ⟨e, ?_, hpe⟩
            show e ∈ (s.record ++ [newEntry name virt phys attr]) ++ s.lost
            rcases List.mem_append.mp he with h1 | h1
            · exact List.mem_append_left _ (List.mem_append_left _ h1)
            · exact List.mem_append_right _ h1
          · refine ⟨newEntry name virt phys attr, ?_, hin⟩
            show newEntry name virt phys attr ∈
              (s.record ++ [newEntry name virt phys attr]) ++ s.lost
            simp

theorem map_pages_preserves_consistent (name : String)
    (virt : PageSliceDescriptor AddressKind.virtual)
    (phys : PageSliceDescriptor AddressKind.physical)
    (attr : AttributeFields) (s : KernelState) (h : consistent s) :
    consistent (kernel_map_pages_at name virt phys attr s).2 := by
  by_cases hg : is_virt_page_slice_mmio s.tables virt = true
  · simp only [kernel_map_pages_at, hg, if_true]
    exact h
  · simp only [kernel_map_pages_at, hg, Bool.false_eq_true, if_false]
    exact unchecked_preserves_consistent name virt phys attr s h

theorem map_mmio_preserves_consistent (name : String) (d : MMIODescriptor)
    (s : KernelState) (h : consistent s) :
    consistent (kernel_map_mmio name d s).2 := by
  obtain ⟨hA, hB⟩ := h
  cases hfind : s.record.find? (physMatches (mmioToPhysPages d)) with
  | some e =>
      rw [kernel_map_mmio_dedup_eq name d s e hfind]
      have hemem := List.mem_of_find?_eq_some hfind
      by_cases hc : s.record_capacity ≤ s.record.length
      · rw [if_pos hc]
        refine ⟨hA, ?_⟩
        intro te hte
        obtain ⟨e', he', hpe⟩ := hB te hte
        refine ⟨e', ?_, hpe⟩
        show e' ∈ s.record ++ (s.lost ++ [dupEntry name e])
        rcases List.mem_append.mp he' with h1 | h1
        · exact List.mem_append_left _ h1
        · exact List.mem_append_right _ (List.mem_append_left _ h1)
      · rw [if_neg hc]
        refine ⟨?_, ?_⟩
        · intro e' he' te hte
          have he2 : e' ∈ s.record ++ [dupEntry name e] := he'
          rcases List.mem_append.mp he2 with h1 | h1
          · exact hA e' h1 te hte
          · have : e' = dupEntry name e := by simpa using h1
            subst this
            exact hA e hemem te hte
        · intro te hte
          obtain ⟨e', he', hpe⟩ := hB te hte
          refine ⟨e', ?_, hpe⟩
          show e' ∈ (s.record ++ [dupEntry name e]) ++ s.lost
          rcases List.mem_append.mp he' with h1 | h1
          · exact List.mem_append_left _ (List.mem_append_left _ h1)
          · exact List.mem_append_right _ h1
  | none =>
      cases hnm : next_mmio_virt_page_slice s.tables
          (mmioToPhysPages d).num_pages with
      | error err =>
          rw [kernel_map_mmio_alloc_fail_eq name d s err hfind hnm]
          exact ⟨hA, hB⟩
      | ok vt =>
          obtain ⟨v, t'⟩ := vt
          obtain ⟨hv, ht', hle⟩ := next_mmio_ok_inversion s.tables
            (mmioToPhysPages d).num_pages v t' hnm
          cases hmp : map_pages_at t' v (mmioToPhysPages d) mmioAttributes with
          | error err =>
              rw [kernel_map_mmio_map_fail_eq name d s v t' err hfind hnm hmp]
              subst ht'
              exact ⟨hA, hB⟩
          | ok t2 =>
              rw [kernel_map_mmio_fresh_eq name d s v t' t2 hfind hnm hmp]
              have ht2 := map_pages_at_ok_inversion t' v (mmioToPhysPages d)
                mmioAttributes t2 hmp
              subst ht2
              subst ht'
              by_cases hc : s.record_capacity ≤ s.record.length
              · rw [if_pos hc]
                refine ⟨?_, ?_⟩
                · intro e' he' te hte
                  show te ∈ s.tables.mappings ++
                    pagesOfSlices v (mmioToPhysPages d) mmioAttributes
                  exact List.mem_append_left _ (hA e' he' te hte)
                · intro te hte
                  have hte2 : te ∈ s.tables.mappings ++
                      pagesOfSlices v (mmioToPhysPages d) mmioAttributes := hte
                  rcases List.mem_append.mp hte2 with hin | hin
                  · obtain ⟨e', he', hpe⟩ := hB te hin
                    refine ⟨e', ?_, hpe⟩
                    show e' ∈ s.record ++ (s.lost ++
                      [newEntry name v (mmioToPhysPages d) mmioAttributes])
                    rcases List.mem_append.mp he' with h1 | h1
                    · exact List.mem_append_left _ h1
                    · exact List.mem_append_right _ (List.mem_append_left _ h1)
                  · refine ⟨newEntry name v (mmioToPhysPages d) mmioAttributes,
                      ?_, hin⟩
                    show newEntry name v (mmioToPhysPages d) mmioAttributes ∈
                      s.record ++ (s.lost ++
                        [newEntry name v (mmioToPhysPages d) mmioAttributes])
                    simp
              · rw [if_neg hc]
                refine ⟨?_, ?_⟩
                · intro e' he' te hte
                  show te ∈ s.tables.mappings ++
                    pagesOfSlices v (mmioToPhysPages d) mmioAttributes
                  have he2 : e' ∈ s.record ++
                      [newEntry name v (mmioToPhysPages d) mmioAttributes] :=
                    he'
                  rcases List.mem_append.mp he2 with h1 | h1
                  · exact List.mem_append_left _ (hA e' h1 te hte)
                  · have : e' = newEntry name v (mmioToPhysPages d)
                        mmioAttributes := by simpa using h1
                    subst this
                    exact List.mem_append_right _ hte
                · intro te hte
                  have hte2 : te ∈ s.tables.mappings ++
                      pagesOfSlices v (mmioToPhysPages d) mmioAttributes := hte
                  rcases List.mem_append.mp hte2 with hin | hin
                  · obtain ⟨e', he', hpe⟩ := hB te hin
                    refine ⟨e', ?_, hpe⟩
                    show e' ∈ (s.record ++
                      [newEntry name v (mmioToPhysPages d) mmioAttributes]) ++
                      s.lost
                    rcases List.mem_append.mp he' with h1 | h1
                    · exact List.mem_append_left _ (List.mem_append_left _ h1)
                    · exact List.mem_append_right _ h1
                  · refine ⟨newEntry name v (mmioToPhysPages d) mmioAttributes,
                      ?_, hin⟩
                    show newEntry name v (mmioToPhysPages d) mmioAttributes ∈
                      (s.record ++
                        [newEntry name v (mmioToPhysPages d) mmioAttributes]) ++
                      s.lost
                    simp

/-- C5: every state reachable from a boot state through the facade keeps the
mapping record and the translation table mutually consistent: each record
entry's pages are installed in the table, and each installed table mapping is
accounted for by a record entry or by an entry dropped on the explicit
capacity-exceeded warning path.  (The lock-ordering clause of the claim is a
concurrency property outside this sequential model; the facade's operations
are modelled as atomic, which is what the same-or-coarser-exclusion rule
guarantees.) -/
theorem facade_keeps_record_table_consistent (s : KernelState)
    (h : Reachable s) : consistent s := by
  induction h with
  | boot tcap mstart mnum rcap =>
      refine ⟨?_, ?_⟩
      · intro e he
        simp [initialState] at he
      · intro te hte
        simp [initialState] at hte
  | map_pages name virt phys attr s hr ih =>
      exact map_pages_preserves_consistent name virt phys attr s ih
  | map_mmio name d s hr ih =>
      exact map_mmio_preserves_consistent name d s ih
  | enable b s hr ih =>
      exact ih

/-- C5 witness: the consistency invariant at a concrete reachable state. -/
theorem facade_keeps_record_table_consistent_witness :
    consistent (initialState 16 100 8 4) :=
  facade_keeps_record_table_consistent (initialState 16 100 8 4)
    (Reachable.boot 16 100 8 4)

/-- A concrete state whose translation table has capacity 0, so any fresh
MMIO mapping fails after the virtual-slice allocation. -/
def cap0State : KernelState :=
  { tables :=
      { mappings := [], capacity := 0, mmio_start_page := 100,
        mmio_num_pages := 8, mmio_cursor := 0 },
    record := [], record_capacity := 4, lost := [], warnings := [],
    hw := sampleHW }

/-- C10 witness: the concrete failing call returns the table-capacity error
while the MMIO cursor stays advanced by one page. -/
theorem kernel_map_mmio_error_keeps_cursor_witness :
    kernel_map_mmio wName wMmioDesc cap0State =
      (.error tableFullError,
       { cap0State with tables :=
           { cap0State.tables with mmio_cursor := 1 } }) ∧
    ({ cap0State.tables with mmio_cursor := 1 } :
      TranslationTables).mappings = cap0State.tables.mappings :=
  kernel_map_mmio_error_keeps_cursor wName wMmioDesc cap0State tableFullError
    rfl (by decide) rfl

/-- C2 counterexample: from a state whose bounded mapping record is full, two
successful `kernel_map_mmio` calls with the byte-identical descriptor under
two different names return two **different** virtual addresses (the first
call's record entry was dropped on the capacity warning path, so the dedup
lookup misses and a second slice is allocated), and the record afterwards
holds no pair of entries at all. -/
theorem kernel_map_mmio_dedup_counterexample :
    (kernel_map_mmio wName wMmioDesc fullRecordState).1 = .ok 6553616 ∧
    (kernel_map_mmio wName2 wMmioDesc
      (kernel_map_mmio wName wMmioDesc fullRecordState).2).1 = .ok 6619152 ∧
    (6553616 ≠ 6619152) ∧
    (kernel_map_mmio wName2 wMmioDesc
      (kernel_map_mmio wName wMmioDesc fullRecordState).2).2.record = [] :=
  ⟨rfl, rfl, by decide, rfl⟩
